import Mathlib

/-!
Verification of the FastPitch data-preparation module
(PyTorch/SpeechSynthesis/FastPitch/fastpitch/data_function.py).

The Python source is shallowly embedded: tensors become lists (of lists) of
rationals or integers, fallible code returns Option/Except, and external
collaborators (scipy, librosa, STFT extraction) are modelled at the interface
granularity the spec describes.
-/

/-- The Beta function at positive integer arguments, shifted so that
Bq x y = B (x + 1) (y + 1) = x! * y! / (x + y + 1)!.  This is the exact
rational value of the Beta function scipy uses inside betabinom. -/
def Bq (x y : ℕ) : ℚ :=
  ((Nat.factorial x : ℚ) * (Nat.factorial y : ℚ)) / (Nat.factorial (x + y + 1) : ℚ)

/-- Modelled from the spec: scipy.stats.betabinom(n, a, b).pmf(k), the
beta-binomial probability mass function C(n,k) * B(k+a, n-k+b) / B(a,b),
for integer shape parameters a, b >= 1 (the only parameters the source uses,
since scaling = 1.0).  scipy is an external collaborator of the repository. -/
def betabinom_pmf (n a b k : ℕ) : ℚ :=
  (Nat.choose n k : ℚ) * Bq (k + a - 1) (n - k + b - 1) / Bq (a - 1) (b - 1)

/-- Embeds beta_binomial_prior_distribution(phoneme_count, mel_count) with the
default scaling = 1.0: for each mel frame index i in 1..M the row is the
beta-binomial pmf with a = i, b = M + 1 - i evaluated at x = 0..P-1. -/
def beta_binomial_prior_distribution (phoneme_count mel_count : ℕ) : List (List ℚ) :=
  (List.range mel_count).map (fun i0 =>
    (List.range phoneme_count).map (fun k =>
      betabinom_pmf phoneme_count (i0 + 1) (mel_count - i0) k))

/-- Round-half-to-even on rationals, the exact semantics of numpy.round on the
(exactly representable) half-integer inputs the claims exercise. -/
def roundHalfEven (q : ℚ) : ℤ :=
  let f : ℤ := ⌊q⌋
  let r : ℚ := q - (f : ℚ)
  if r < 1/2 then f
  else if 1/2 < r then f + 1
  else if f % 2 = 0 then f else f + 1

/-- Embeds BetaBinomialInterpolator.round(val, to) =
max(1, int(np.round((val + 1) / to))) * to.  The parameter named to in the
source is called bucket here because to is a reserved word in Lean. -/
def BetaBinomialInterpolator.round (val bucket : ℕ) : ℤ :=
  max 1 (roundHalfEven ((val + 1 : ℚ) / (bucket : ℚ))) * bucket

/-- Strips a root component list off the front of a path component list,
returning none when the path is not below the root: the behaviour of
pathlib relative_to, which raises ValueError in that case. -/
def stripComponents : List String → List String → Option (List String)
  | [], p => some p
  | _ :: _, [] => none
  | r :: rs, q :: qs => if r = q then stripComponents rs qs else none

def splitSlashAux : List Char → List Char → List (List Char)
  | [], acc => [acc.reverse]
  | c :: rest, acc =>
      if c = '/' then acc.reverse :: splitSlashAux rest []
      else splitSlashAux rest (c :: acc)

/-- The slash-separated components of a path string. -/
def pathComponents (p : String) : List String :=
  (splitSlashAux p.toList []).map (fun cs => String.mk cs)

/-- pathlib Path(p).relative_to(root), on slash-separated path strings. -/
def pathRelTo (p root : String) : Option String :=
  (stripComponents (pathComponents root) (pathComponents p)).map (String.intercalate "/")

def dropExtRev : List Char → Option (List Char)
  | [] => none
  | c :: rest => if c = '.' then some rest else dropExtRev rest

/-- pathlib Path(p).with_suffix(".pt"): replace the extension of the final
path component (after its last dot), or append ".pt" when it has none. -/
def withSuffixPt (p : String) : String :=
  let comps := pathComponents p
  let last := comps.getLastD ""
  let base := match dropExtRev last.toList.reverse with
    | some r => String.mk r.reverse
    | none => last
  String.intercalate "/" (comps.dropLast ++ [base ++ ".pt"])

def pathJoin (a b : String) : String := a ++ "/" ++ b

/-- Embeds the cache-path derivation of TTSDataset.get_prior (and its guard):
audiopath, *_ = self.audiopaths_and_text[index] unpacks the FIRST KEY of the
metadata dict (load_filepaths_and_text returns a list of dicts, and iterating
a dict yields its keys), then
fname = Path(audiopath).relative_to(dataset_path) if dataset_path else Path(audiopath),
fname = fname.with_suffix(".pt"), cached_fpath = Path(tmp_dir, fname).
An entry is modelled as its dict in insertion order: a list of key-value pairs. -/
def TTSDataset.prior_cache_path (dataset_path : Option String) (tmp_dir : String)
    (entry : List (String × String)) : Option String :=
  let audiopath := (entry.headD ("", "")).1
  let fname? : Option String := match dataset_path with
    | some dp => pathRelTo audiopath dp
    | none => some audiopath
  fname?.map (fun f => pathJoin tmp_dir (withSuffixPt f))

inductive DiskEffect where
  | read (path : String)
  | write (path : String)
deriving DecidableEq

/-- Modelled from the spec: scipy.ndimage.zoom with order=1 resizes the matrix
to exactly (w, h); scipy is an external collaborator, so only the output shape
and determinism of the resampling are modelled (by index resampling). -/
def zoomResize (w h : ℕ) (m : List (List ℚ)) : List (List ℚ) :=
  (List.range w).map (fun i =>
    (List.range h).map (fun j =>
      (m.getD (i * m.length / max 1 w) []).getD (j * (m.headD []).length / max 1 h) 0))

/-- Embeds BetaBinomialInterpolator.__call__(w, h): round both lengths to
bucket sizes, take the memoized exact matrix bank(bw, bh) (an lru_cache around
beta_binomial_prior_distribution, hence a pure function of the bucket pair),
transpose it and resize to exactly (w, h). -/
def BetaBinomialInterpolator.call (round_mel_len_to round_text_len_to w h : ℕ) :
    List (List ℚ) :=
  let bw := (BetaBinomialInterpolator.round w round_mel_len_to).toNat
  let bh := (BetaBinomialInterpolator.round h round_text_len_to).toNat
  zoomResize w h (beta_binomial_prior_distribution bw bh).transpose

/-- Embeds TTSDataset.get_prior(index, mel_len, text_len).  The dataset state
is passed explicitly: the metadata entries, and the disk cache as a map from
file path to stored matrix.  The result carries the list of disk operations
performed; none models a raised exception (relative_to failing).  The
interpolator is constructed with its default bucket sizes 100 and 20. -/
def TTSDataset.get_prior (use_betabinomial_interpolator : Bool)
    (betabinomial_tmp_dir dataset_path : Option String)
    (entries : List (List (String × String)))
    (disk : String → Option (List (List ℚ)))
    (index mel_len text_len : ℕ) : Option (List (List ℚ) × List DiskEffect) :=
  if use_betabinomial_interpolator then
    some (BetaBinomialInterpolator.call 100 20 mel_len text_len, [])
  else
    match betabinomial_tmp_dir with
    | some td =>
        match TTSDataset.prior_cache_path dataset_path td (entries.getD index []) with
        | none => none
        | some fp =>
            match disk fp with
            | some m => some (m, [DiskEffect.read fp])
            | none => some (beta_binomial_prior_distribution text_len mel_len,
                [DiskEffect.write fp])
    | none => some (beta_binomial_prior_distribution text_len mel_len, [])

/-- The configuration get_mel consults; mel_spectrogram stands for the
external TacotronSTFT collaborator. -/
structure MelConfig where
  load_mel_from_disk : Bool
  max_wav_value : ℚ
  target_sampling_rate : ℕ
  mel_spectrogram : List ℚ → List (List ℚ)

/-- Embeds TTSDataset.get_mel(filename).  The waveform loaded from the file is
passed as (audio, sampling_rate) and the tensor torch.load would return as
disk_mel.  In the compute path the audio is normalized by max_wav_value and
handed to the STFT collaborator; a sampling-rate mismatch raises ValueError. -/
def TTSDataset.get_mel (cfg : MelConfig) (audio : List ℚ) (sampling_rate : ℕ)
    (disk_mel : List (List ℚ)) : Except String (List (List ℚ)) :=
  if cfg.load_mel_from_disk = false then
    if sampling_rate ≠ cfg.target_sampling_rate then
      Except.error (toString sampling_rate ++ " SR does not match target "
        ++ toString cfg.target_sampling_rate ++ " SR")
    else
      Except.ok (cfg.mel_spectrogram (audio.map (fun s => s / cfg.max_wav_value)))
  else
    Except.ok disk_mel

def melFrames {α : Type} (mel : List (List α)) : ℕ := (mel.headD []).length

/-- torch.norm(mel.float(), dim=0, p=2): one value per mel frame.  The square
root of the per-frame sum of squares is irrational, so the value modelled is
the squared norm; the claims concern only the frame count, which agrees. -/
def melEnergy (mel : List (List ℚ)) : List ℚ :=
  (List.range (melFrames mel)).map (fun t =>
    (mel.map (fun row => row.getD t 0 * row.getD t 0)).sum)

/-- Modelled from the spec: pitch tensors produced by the pitch sources
(precomputed disk tensors or the external estimate_pitch collaborator) are
1-D of shape (T,) or 2-D of shape (F, T) with F >= 1 formant rows. -/
inductive PitchTensor where
  | one (v : List ℚ)
  | two (f0 : List ℚ) (rest : List (List ℚ))

/-- pitch.size(-1). -/
def PitchTensor.lastDim : PitchTensor → ℕ
  | .one v => v.length
  | .two f0 _ => f0.length

/-- The pitch rows after the loader's reshape: a 1-D tensor becomes
pitch[None, :], an explicit (1, T), a 2-D tensor is returned unchanged. -/
def PitchTensor.rows : PitchTensor → List (List ℚ)
  | .one v => [v]
  | .two f0 rest => f0 :: rest

/-- Embeds the feature-consistency portion of TTSDataset.__getitem__: energy
is derived from the mel, the assert pitch.size(-1) == mel.size(-1) aborts the
load on a frame-count mismatch (modelled as none), and a 1-D pitch tensor is
reshaped to (1, T) before the example is returned. -/
def TTSDataset.getitem_features (mel : List (List ℚ)) (pitch : PitchTensor) :
    Option (List (List ℚ) × List ℚ) :=
  let energy := melEnergy mel
  if pitch.lastDim = melFrames mel then some (pitch.rows, energy) else none

/-- One element of a collation batch: the tuple returned by
TTSDataset.__getitem__, with its positional slots named.  The float scalar
type of the tensors is abstract (collation only copies values and fills with
zero); it is instantiated at ℚ for the numeric development and at ℤ in
concrete witnesses, where equality is kernel-decidable. -/
structure Ex (α : Type) where
  text : List ℤ
  mel : List (List α)
  len_text : ℕ
  pitch : List (List α)
  energy : List α
  speaker : Option ℤ
  attn_prior : List (List α)
  audiopath : String
  cwt_acc : Option (List ℤ)
  ds_mel : Option (List (List α))
deriving DecidableEq

instance {α : Type} : Inhabited (Ex α) := ⟨⟨[], [], 0, [], [], none, [], "", none, none⟩⟩

/-- The tuple TTSCollate.__call__ returns (in source slot order).  Whenever it
returns at all, every slot is bound, including output_lengths_ds. -/
structure Batch (α : Type) where
  text_padded : List (List ℤ)
  input_lengths : List ℕ
  mel_padded : List (List (List α))
  output_lengths : List ℕ
  len_x : List ℕ
  pitch_padded : List (List (List α))
  energy_padded : List (List α)
  speaker : Option (List ℤ)
  attn_prior_padded : List (List (List α))
  audiopaths : List String
  cwt_padded : Option (List (List ℤ))
  ds_mel_padded : Option (List (List (List α)))
  output_lengths_ds : List ℕ
deriving DecidableEq

/-- Right zero-pad a row to length n (the effect of writing the row into a
zeroed tensor of width n). -/
def padRow {α : Type} (z : α) (n : ℕ) (xs : List α) : List α :=
  xs ++ List.replicate (n - xs.length) z

/-- The per-example text lengths, in the original batch order. -/
def textLens {α : Type} (batch : List (Ex α)) : List ℕ :=
  batch.map (fun e => e.text.length)

/-- ids_sorted_decreasing: the index permutation produced by
torch.sort(lengths, descending=True).  A stable descending sort of the
indices 0..N-1 by their text length. -/
def sortIdx (ls : List ℕ) : List ℕ :=
  (List.range ls.length).insertionSort (fun i j => ls.getD j 0 ≤ ls.getD i 0)

def sortedIdxOf {α : Type} (batch : List (Ex α)) : List ℕ :=
  sortIdx (textLens batch)

/-- input_lengths: the text lengths in sorted (descending) order. -/
def inputLengthsOf {α : Type} (batch : List (Ex α)) : List ℕ :=
  (sortedIdxOf batch).map (fun i => (textLens batch).getD i 0)

/-- max_input_len = input_lengths[0]. -/
def maxInputLen {α : Type} (batch : List (Ex α)) : ℕ :=
  (inputLengthsOf batch).headD 0

/-- text_padded: row i is the text of the i-th example in sorted order,
right zero-padded to max_input_len. -/
def textPaddedOf {α : Type} (batch : List (Ex α)) : List (List ℤ) :=
  (sortedIdxOf batch).map (fun i =>
    padRow 0 (maxInputLen batch) ((batch.getD i default).text))

/-- max_target_len = max(x[1].size(1) for x in batch). -/
def maxTargetLen {α : Type} (batch : List (Ex α)) : ℕ :=
  (batch.map (fun e => melFrames e.mel)).foldr max 0

/-- mel_padded: each channel row of each sorted example, zero-padded to
max_target_len frames. -/
def melPaddedOf {α : Type} [Zero α] (batch : List (Ex α)) : List (List (List α)) :=
  (sortedIdxOf batch).map (fun i =>
    ((batch.getD i default).mel).map (padRow 0 (maxTargetLen batch)))

/-- output_lengths: mel frame counts in sorted order. -/
def outputLengthsOf {α : Type} (batch : List (Ex α)) : List ℕ :=
  (sortedIdxOf batch).map (fun i => melFrames ((batch.getD i default).mel))

def pitchPaddedOf {α : Type} [Zero α] (batch : List (Ex α)) : List (List (List α)) :=
  (sortedIdxOf batch).map (fun i =>
    ((batch.getD i default).pitch).map (padRow 0 (maxTargetLen batch)))

def energyPaddedOf {α : Type} [Zero α] (batch : List (Ex α)) : List (List α) :=
  (sortedIdxOf batch).map (fun i =>
    padRow 0 (maxTargetLen batch) ((batch.getD i default).energy))

def speakerOf {α : Type} (batch : List (Ex α)) : Option (List ℤ) :=
  ((batch.headD default).speaker).map (fun _ =>
    (sortedIdxOf batch).map (fun i => ((batch.getD i default).speaker).getD 0))

/-- A prior matrix written into the top-left corner of a zeroed
(rows x cols) tensor. -/
def padPrior {α : Type} [Zero α] (rows cols : ℕ) (p : List (List α)) : List (List α) :=
  p.map (padRow 0 cols) ++ List.replicate (rows - p.length) (List.replicate cols 0)

def attnPriorPaddedOf {α : Type} [Zero α] (batch : List (Ex α)) : List (List (List α)) :=
  (sortedIdxOf batch).map (fun i =>
    padPrior (maxTargetLen batch) (maxInputLen batch) ((batch.getD i default).attn_prior))

/-- len_x = [x[2] for x in batch]: the raw token-count scalars, in the
original (pre-sort) batch order. -/
def lenXOf {α : Type} (batch : List (Ex α)) : List ℕ :=
  batch.map (fun e => e.len_text)

/-- audiopaths = [batch[i][7] for i in ids_sorted_decreasing]: sorted order. -/
def audiopathsOf {α : Type} (batch : List (Ex α)) : List String :=
  (sortedIdxOf batch).map (fun i => (batch.getD i default).audiopath)

def cwtPaddedOf {α : Type} (batch : List (Ex α)) : Option (List (List ℤ)) :=
  ((batch.headD default).cwt_acc).map (fun _ =>
    (sortedIdxOf batch).map (fun i =>
      padRow 0 (maxInputLen batch) (((batch.getD i default).cwt_acc).getD [])))

def maxTargetLenDs {α : Type} (batch : List (Ex α)) : ℕ :=
  (batch.map (fun e => melFrames (e.ds_mel.getD []))).foldr max 0

def dsMelPaddedOf {α : Type} [Zero α] (batch : List (Ex α)) : List (List (List α)) :=
  (sortedIdxOf batch).map (fun i =>
    (((batch.getD i default).ds_mel).getD []).map (padRow 0 (maxTargetLenDs batch)))

def outputLengthsDsOf {α : Type} (batch : List (Ex α)) : List ℕ :=
  (sortedIdxOf batch).map (fun i => melFrames (((batch.getD i default).ds_mel).getD []))

/-- Embeds TTSCollate.__call__(batch).  none models a raised exception:
an empty batch fails at input_lengths[0], and a batch whose first example has
no downsampled mel fails at the final return statement, where
output_lengths_ds is referenced but was only assigned inside the
batch[0][9] is not None branch (ds_mel_padded = None is set in the else
branch, output_lengths_ds is not). -/
def TTSCollate.call {α : Type} [Zero α] (batch : List (Ex α)) : Option (Batch α) :=
  if batch.isEmpty then none
  else
    match (batch.headD default).ds_mel with
    | none => none
    | some _ => some {
        text_padded := textPaddedOf batch
        input_lengths := inputLengthsOf batch
        mel_padded := melPaddedOf batch
        output_lengths := outputLengthsOf batch
        len_x := lenXOf batch
        pitch_padded := pitchPaddedOf batch
        energy_padded := energyPaddedOf batch
        speaker := speakerOf batch
        attn_prior_padded := attnPriorPaddedOf batch
        audiopaths := audiopathsOf batch
        cwt_padded := cwtPaddedOf batch
        ds_mel_padded := some (dsMelPaddedOf batch)
        output_lengths_ds := outputLengthsDsOf batch }

/-- A concrete configuration for the get_mel witness. -/
def melCfgW : MelConfig :=
  { load_mel_from_disk := false
    max_wav_value := 32768
    target_sampling_rate := 22050
    mel_spectrogram := fun a => [a] }

def melW : List (List ℚ) := [[1, 2, 3], [4, 5, 6]]

def pitchW : PitchTensor := PitchTensor.one [7, 8, 9]

def exNoDs : Ex ℤ :=
  { text := [1, 2], mel := [[1, 1, 1]], len_text := 2, pitch := [[1, 1, 1]],
    energy := [1, 1, 1], speaker := none, attn_prior := [[0, 0], [0, 0], [0, 0]],
    audiopath := "wavs/a.wav", cwt_acc := none, ds_mel := none }

def exA : Ex ℤ :=
  { text := [10, 11, 12, 13, 14], mel := [[1, 2], [3, 4]], len_text := 5,
    pitch := [[1, 2]], energy := [1, 2], speaker := none,
    attn_prior := [[0, 0, 0, 0, 0], [0, 0, 0, 0, 0]], audiopath := "wavs/a.wav",
    cwt_acc := none, ds_mel := some [[1, 2]] }

def exB : Ex ℤ :=
  { text := [20, 21, 22], mel := [[5], [6]], len_text := 3,
    pitch := [[5]], energy := [5], speaker := none, attn_prior := [[0, 0, 0]],
    audiopath := "wavs/b.wav", cwt_acc := none, ds_mel := some [[3]] }

def batchW : List (Ex ℤ) := [exB, exA]

lemma Bq_pos (x y : ℕ) : 0 < Bq x y := by
  unfold Bq
  apply div_pos
  · exact mul_pos (by exact_mod_cast Nat.factorial_pos x) (by exact_mod_cast Nat.factorial_pos y)
  · exact_mod_cast Nat.factorial_pos (x + y + 1)

/-- The Pascal-style recurrence of the beta function:
B (x+1) (y+1) = B (x+2) (y+1) + B (x+1) (y+2). -/
lemma Bq_rec (x y : ℕ) : Bq x y = Bq (x + 1) y + Bq x (y + 1) := by
  unfold Bq
  have e1 : x + 1 + y + 1 = (x + y + 1) + 1 := by omega
  have e2 : x + (y + 1) + 1 = (x + y + 1) + 1 := by omega
  rw [e1, e2]
  simp only [Nat.factorial_succ]
  have h0 : ((x + y + 1).factorial : ℚ) ≠ 0 := by exact_mod_cast (Nat.factorial_pos _).ne'
  have h1 : ((x : ℚ) + (y : ℚ) + 1 + 1) ≠ 0 := by positivity
  push_cast
  field_simp
  ring

lemma list_sum_range (f : ℕ → ℚ) (n : ℕ) :
    ((List.range n).map f).sum = ∑ k ∈ Finset.range n, f k := by
  induction n with
  | zero => simp
  | succ n ih =>
      rw [List.range_succ, List.map_append, List.sum_append, Finset.sum_range_succ, ih]
      simp

/-- The normalization identity behind the beta-binomial distribution:
the binomial convolution of shifted beta values collapses to a single
beta value.  Proven by induction on n via the Pascal recurrences of the
binomial coefficient and of Bq. -/
lemma sum_choose_Bq (n : ℕ) : ∀ x y : ℕ,
    ∑ k ∈ Finset.range (n + 1), (Nat.choose n k : ℚ) * Bq (k + x) (n - k + y) = Bq x y := by
  induction n with
  | zero => intro x y; simp
  | succ n ih =>
      intro x y
      rw [Finset.sum_range_succ' (fun k => (((n+1).choose k : ℕ) : ℚ) * Bq (k + x) (n + 1 - k + y)) (n+1)]
      have step : ∀ k ∈ Finset.range (n+1),
          (((n+1).choose (k+1) : ℕ) : ℚ) * Bq (k + 1 + x) (n + 1 - (k+1) + y)
            = (n.choose k : ℚ) * Bq (k + (x+1)) (n - k + y)
              + (n.choose (k+1) : ℚ) * Bq ((k+1) + x) ((n - k) + y) := by
        intro k hk
        rw [Nat.choose_succ_succ]
        push_cast
        rw [add_mul, show k + 1 + x = k + (x+1) from by omega]
      rw [Finset.sum_congr rfl step, Finset.sum_add_distrib, ih (x+1) y]
      have e := Finset.sum_range_succ (fun j => ((n.choose j : ℕ) : ℚ) * Bq (j + x) (n + 1 - j + y)) (n+1)
      have eT : ((n.choose (n+1) : ℕ) : ℚ) * Bq ((n+1) + x) (n + 1 - (n+1) + y) = 0 := by
        rw [Nat.choose_succ_self]
        norm_num
      have eP := Finset.sum_range_succ' (fun j => ((n.choose j : ℕ) : ℚ) * Bq (j + x) (n + 1 - j + y)) (n+1)
      rw [eT, add_zero] at e
      have hB : ∀ k ∈ Finset.range (n+1),
          (fun j => ((n.choose j : ℕ) : ℚ) * Bq (j + x) (n + 1 - j + y)) (k+1)
            = (n.choose (k+1) : ℚ) * Bq ((k+1) + x) ((n - k) + y) := by
        intro k hk
        simp only
        rw [show n + 1 - (k+1) = n - k from by omega]
      have hMid : ∀ j ∈ Finset.range (n+1),
          ((n.choose j : ℕ) : ℚ) * Bq (j + x) (n + 1 - j + y)
            = (n.choose j : ℚ) * Bq (j + x) ((n - j) + (y+1)) := by
        intro j hj
        have hj' : j < n + 1 := Finset.mem_range.mp hj
        rw [show n + 1 - j + y = (n - j) + (y+1) from by omega]
      have key : ∑ k ∈ Finset.range (n+1), (n.choose (k+1) : ℚ) * Bq ((k+1) + x) ((n - k) + y)
            + ((n+1).choose 0 : ℚ) * Bq (0 + x) (n + 1 - 0 + y)
          = Bq x (y+1) := by
        rw [← Finset.sum_congr rfl hB]
        have h00 : (((n+1).choose 0 : ℕ) : ℚ) * Bq (0 + x) (n + 1 - 0 + y)
            = (fun j => ((n.choose j : ℕ) : ℚ) * Bq (j + x) (n + 1 - j + y)) 0 := by
          simp [Nat.choose_zero_right]
        rw [h00, ← eP, e, Finset.sum_congr rfl hMid, ih x (y+1)]
      rw [add_assoc, key, ← Bq_rec]

/-- The beta-binomial pmf sums to 1 over its full support 0..n. -/
lemma betabinom_total (n a b : ℕ) (ha : 1 ≤ a) (hb : 1 ≤ b) :
    ∑ k ∈ Finset.range (n + 1), betabinom_pmf n a b k = 1 := by
  obtain ⟨x, rfl⟩ : ∃ x, a = x + 1 := ⟨a - 1, by omega⟩
  obtain ⟨y, rfl⟩ : ∃ y, b = y + 1 := ⟨b - 1, by omega⟩
  unfold betabinom_pmf
  simp only [show ∀ k : ℕ, k + (x+1) - 1 = k + x from fun k => by omega,
    show ∀ m : ℕ, m + (y+1) - 1 = m + y from fun m => by omega, Nat.add_sub_cancel]
  rw [← Finset.sum_div, sum_choose_Bq n x y]
  exact div_self (Bq_pos x y).ne'

lemma betabinom_pmf_last_pos (n a b : ℕ) : 0 < betabinom_pmf n a b n := by
  unfold betabinom_pmf
  rw [Nat.choose_self]
  push_cast
  rw [one_mul]
  exact div_pos (Bq_pos _ _) (Bq_pos _ _)

/-- Truncating the support at n-1 (as the source does with x = arange(0, P))
loses exactly the mass of the last support point. -/
lemma betabinom_truncated_sum (n a b : ℕ) (ha : 1 ≤ a) (hb : 1 ≤ b) :
    ∑ k ∈ Finset.range n, betabinom_pmf n a b k = 1 - betabinom_pmf n a b n := by
  have h := betabinom_total n a b ha hb
  rw [Finset.sum_range_succ] at h
  linarith

lemma getD_map_of_lt {α β : Type} (f : α → β) (l : List α) {i : ℕ} (hi : i < l.length)
    (d : β) (d0 : α) : (l.map f).getD i d = f (l.getD i d0) := by
  rw [List.getD_eq_getElem?_getD, List.getElem?_map, List.getD_eq_getElem?_getD,
    List.getElem?_eq_getElem hi]
  simp

lemma getD_mem {α : Type} (l : List α) {i : ℕ} (hi : i < l.length) (d : α) :
    l.getD i d ∈ l := by
  rw [List.getD_eq_getElem?_getD, List.getElem?_eq_getElem hi]
  simpa using List.getElem_mem hi

lemma getD_replicate_self {α : Type} (n j : ℕ) (z : α) :
    (List.replicate n z).getD j z = z := by
  induction n generalizing j with
  | zero => simp
  | succ n ih =>
      cases j with
      | zero => simp [List.replicate_succ]
      | succ j => simpa [List.replicate_succ] using ih j

lemma padRow_length {α : Type} (z : α) {n : ℕ} (xs : List α) (h : xs.length ≤ n) :
    (padRow z n xs).length = n := by
  simp only [padRow, List.length_append, List.length_replicate]
  omega

lemma padRow_getD_of_le {α : Type} (z : α) (n : ℕ) (xs : List α) {j : ℕ}
    (h : xs.length ≤ j) : (padRow z n xs).getD j z = z := by
  rw [padRow, List.getD_append_right _ _ _ _ h]
  exact getD_replicate_self _ _ _

lemma padRow_take {α : Type} (z : α) (n : ℕ) (xs : List α) :
    (padRow z n xs).take xs.length = xs := by
  rw [padRow, List.take_left]

lemma range_map_getD {α β : Type} (d : α) (f : α → β) (l : List α) :
    (List.range l.length).map (fun i => f (l.getD i d)) = l.map f := by
  induction l with
  | nil => simp
  | cons a t ih =>
      rw [List.length_cons, List.range_succ_eq_map, List.map_cons, List.map_map]
      have hcomp : ((fun i => f ((a :: t).getD i d)) ∘ Nat.succ) = (fun i => f (t.getD i d)) := by
        funext i
        simp
      rw [hcomp, ih]
      simp

lemma range_map_getD_self {α : Type} (d : α) (l : List α) :
    (List.range l.length).map (fun i => l.getD i d) = l := by
  have h := range_map_getD d id l
  simpa using h

lemma sortIdx_perm (ls : List ℕ) : (sortIdx ls).Perm (List.range ls.length) :=
  List.perm_insertionSort _ _

lemma sortIdx_length (ls : List ℕ) : (sortIdx ls).length = ls.length := by
  rw [(sortIdx_perm ls).length_eq, List.length_range]

lemma mem_sortIdx {ls : List ℕ} {i : ℕ} (h : i ∈ sortIdx ls) : i < ls.length := by
  have hm := (sortIdx_perm ls).mem_iff.mp h
  simpa using hm

lemma sortIdx_sorted (ls : List ℕ) :
    (sortIdx ls).Pairwise (fun i j => ls.getD j 0 ≤ ls.getD i 0) := by
  haveI : IsTotal ℕ (fun i j => ls.getD j 0 ≤ ls.getD i 0) := ⟨fun a b => le_total _ _⟩
  haveI : IsTrans ℕ (fun i j => ls.getD j 0 ≤ ls.getD i 0) :=
    ⟨fun a b c hab hbc => le_trans hbc hab⟩
  exact List.sorted_insertionSort _ _

lemma textLens_length {α : Type} (batch : List (Ex α)) :
    (textLens batch).length = batch.length := by
  simp [textLens]

lemma sortedIdxOf_length {α : Type} (batch : List (Ex α)) :
    (sortedIdxOf batch).length = batch.length := by
  rw [sortedIdxOf, sortIdx_length, textLens_length]

lemma sortedIdxOf_getD_lt {α : Type} (batch : List (Ex α)) {i : ℕ} (hi : i < batch.length) :
    (sortedIdxOf batch).getD i 0 < batch.length := by
  have hmem : (sortedIdxOf batch).getD i 0 ∈ sortedIdxOf batch :=
    getD_mem _ (by rw [sortedIdxOf_length]; exact hi) _
  have hlt := mem_sortIdx hmem
  rwa [textLens_length] at hlt

lemma textLens_getD {α : Type} (batch : List (Ex α)) {i : ℕ} (hi : i < batch.length) :
    (textLens batch).getD i 0 = ((batch.getD i default).text).length := by
  rw [textLens]
  exact getD_map_of_lt (fun e => e.text.length) batch hi 0 default

lemma inputLengthsOf_length {α : Type} (batch : List (Ex α)) :
    (inputLengthsOf batch).length = batch.length := by
  rw [inputLengthsOf, List.length_map, sortedIdxOf_length]

lemma inputLengthsOf_sorted {α : Type} (batch : List (Ex α)) :
    (inputLengthsOf batch).Sorted (fun a b => b ≤ a) := by
  rw [inputLengthsOf, List.Sorted, List.pairwise_map]
  exact sortIdx_sorted (textLens batch)

lemma inputLengthsOf_perm {α : Type} (batch : List (Ex α)) :
    (inputLengthsOf batch).Perm (textLens batch) := by
  have h := (sortIdx_perm (textLens batch)).map (fun i => (textLens batch).getD i 0)
  rw [range_map_getD_self 0 (textLens batch)] at h
  exact h

lemma sorted_ge_le_headD {l : List ℕ} (h : l.Sorted (fun a b => b ≤ a)) {x : ℕ}
    (hx : x ∈ l) : x ≤ l.headD 0 := by
  cases l with
  | nil => cases hx
  | cons a t =>
      rcases List.mem_cons.mp hx with rfl | hxt
      · simp
      · exact List.rel_of_sorted_cons h x hxt

lemma le_maxInputLen {α : Type} {batch : List (Ex α)} {x : ℕ} (hx : x ∈ textLens batch) :
    x ≤ maxInputLen batch :=
  sorted_ge_le_headD (inputLengthsOf_sorted batch)
    ((inputLengthsOf_perm batch).mem_iff.mpr hx)

lemma le_foldr_max {l : List ℕ} {x : ℕ} (hx : x ∈ l) : x ≤ l.foldr max 0 := by
  induction l with
  | nil => cases hx
  | cons a t ih =>
      rcases List.mem_cons.mp hx with rfl | h
      · exact le_max_left _ _
      · exact le_trans (ih h) (le_max_right _ _)

lemma foldr_max_le {l : List ℕ} {b : ℕ} (h : ∀ x ∈ l, x ≤ b) : l.foldr max 0 ≤ b := by
  induction l with
  | nil => simp
  | cons a t ih =>
      simp only [List.foldr_cons, max_le_iff]
      exact ⟨h a (by simp), ih (fun x hx => h x (List.mem_cons_of_mem _ hx))⟩

lemma maxInputLen_eq_foldr {α : Type} {batch : List (Ex α)} (hne : batch ≠ []) :
    maxInputLen batch = (textLens batch).foldr max 0 := by
  apply le_antisymm
  · have hlen : 0 < (inputLengthsOf batch).length := by
      rw [inputLengthsOf_length]
      cases batch with
      | nil => exact absurd rfl hne
      | cons a t => simp
    have hmem : maxInputLen batch ∈ inputLengthsOf batch := by
      rw [maxInputLen]
      cases h : inputLengthsOf batch with
      | nil => rw [h] at hlen; cases hlen
      | cons a t => simp
    exact le_foldr_max ((inputLengthsOf_perm batch).mem_iff.mp hmem)
  · exact foldr_max_le (fun x hx => le_maxInputLen hx)

lemma range_getD {n i : ℕ} (h : i < n) : (List.range n).getD i 0 = i := by
  rw [List.getD_eq_getElem?_getD, List.getElem?_range h]
  rfl

/-- C3 counterexample: at P = 1, M = 1 the (single) row of the exact
beta-binomial matrix sums to 1/2 rather than 1: the pmf is evaluated only at
x = 0 while its support is 0..1. -/
theorem beta_binomial_row_sum_ne_one :
    ((beta_binomial_prior_distribution 1 1).getD 0 []).sum ≠ 1 := by
  norm_num [beta_binomial_prior_distribution, betabinom_pmf, Bq, List.range_succ,
    Nat.factorial]

/-- C3 (amended): for P, M >= 1 the exact beta-binomial matrix has shape
(M, P), and row i (i = i0 + 1 in 1..M) is the beta-binomial pmf with
a = i, b = M + 1 - i evaluated at positions 0..P-1; consequently each row
sums to 1 - pmf(P) - the mass of the omitted support point P - which is
strictly less than 1. -/
theorem beta_binomial_rows_shape_and_sums (P M : ℕ) (hP : 1 ≤ P) (hM : 1 ≤ M) :
    (beta_binomial_prior_distribution P M).length = M ∧
    (∀ row ∈ beta_binomial_prior_distribution P M, row.length = P) ∧
    (∀ i0 < M, ((beta_binomial_prior_distribution P M).getD i0 []).sum
        = 1 - betabinom_pmf P (i0 + 1) (M - i0) P) ∧
    (∀ i0 < M, ((beta_binomial_prior_distribution P M).getD i0 []).sum < 1) := by
  have hrow : ∀ i0 < M, (beta_binomial_prior_distribution P M).getD i0 []
      = (List.range P).map (fun k => betabinom_pmf P (i0 + 1) (M - i0) k) := by
    intro i0 hi0
    rw [beta_binomial_prior_distribution]
    have hi0r : i0 < (List.range M).length := by simpa using hi0
    rw [getD_map_of_lt _ _ hi0r [] 0, range_getD hi0]
  have hsum : ∀ i0 < M, ((beta_binomial_prior_distribution P M).getD i0 []).sum
      = 1 - betabinom_pmf P (i0 + 1) (M - i0) P := by
    intro i0 hi0
    rw [hrow i0 hi0, list_sum_range]
    exact betabinom_truncated_sum P (i0 + 1) (M - i0) (by omega) (by omega)
  refine ⟨by simp [beta_binomial_prior_distribution], ?_, hsum, ?_⟩
  · intro row hr
    rw [beta_binomial_prior_distribution] at hr
    obtain ⟨i0, hi0, rfl⟩ := List.mem_map.mp hr
    simp
  · intro i0 hi0
    rw [hsum i0 hi0]
    have hpos := betabinom_pmf_last_pos P (i0 + 1) (M - i0)
    linarith

/-- C3 witness: the amended statement instantiated at P = 2, M = 1. -/
theorem beta_binomial_rows_shape_and_sums_witness :
    (beta_binomial_prior_distribution 2 1).length = 1 ∧
    (∀ row ∈ beta_binomial_prior_distribution 2 1, row.length = 2) ∧
    (∀ i0 < 1, ((beta_binomial_prior_distribution 2 1).getD i0 []).sum
        = 1 - betabinom_pmf 2 (i0 + 1) (1 - i0) 2) ∧
    (∀ i0 < 1, ((beta_binomial_prior_distribution 2 1).getD i0 []).sum < 1) :=
  beta_binomial_rows_shape_and_sums 2 1 (by norm_num) (by norm_num)

/-- C4 counterexample: round(9, 4) = 8 < 9, because (9 + 1) / 4 = 2.5 is
rounded half-to-even DOWN to 2; the result is not an upper bound of the
input length. -/
theorem interp_round_below_input :
    BetaBinomialInterpolator.round 9 4 = 8 ∧ BetaBinomialInterpolator.round 9 4 < 9 := by
  constructor <;> norm_num [BetaBinomialInterpolator.round, roundHalfEven]

/-- C4 (amended): for every v >= 0 and bucket size to >= 1, round(v, to) is a
positive multiple of to and at least to (minimum one bucket); it rounds
(v + 1) / to to the NEAREST bucket (ties to even), so it need not be >= v. -/
theorem interp_round_pos_multiple (val bucket : ℕ) (h : 1 ≤ bucket) :
    (bucket : ℤ) ≤ BetaBinomialInterpolator.round val bucket ∧
    (bucket : ℤ) ∣ BetaBinomialInterpolator.round val bucket ∧
    0 < BetaBinomialInterpolator.round val bucket := by
  have hk : (1 : ℤ) ≤ max 1 (roundHalfEven ((val + 1 : ℚ) / (bucket : ℚ))) := le_max_left _ _
  have hb : (0 : ℤ) < (bucket : ℤ) := by exact_mod_cast h
  unfold BetaBinomialInterpolator.round
  refine ⟨?_, dvd_mul_left _ _, mul_pos (lt_of_lt_of_le one_pos hk) hb⟩
  calc (bucket : ℤ) = 1 * bucket := (one_mul _).symm
    _ ≤ max 1 (roundHalfEven ((val + 1 : ℚ) / (bucket : ℚ))) * bucket :=
        mul_le_mul_of_nonneg_right hk hb.le

/-- C4 witness: the amended statement at v = 0, to = 5. -/
theorem interp_round_pos_multiple_witness :
    ((5 : ℕ) : ℤ) ≤ BetaBinomialInterpolator.round 0 5 ∧
    ((5 : ℕ) : ℤ) ∣ BetaBinomialInterpolator.round 0 5 ∧
    0 < BetaBinomialInterpolator.round 0 5 :=
  interp_round_pos_multiple 0 5 (by norm_num)

/-- C2: in disk-cached prior mode the cache path is NOT derived from the
example's audio path: the dict unpack takes the first metadata KEY, so two
entries with distinct audio paths collide on the same cache file
(tmp_dir/mels.pt) when no dataset root is set, and with a dataset root set
the derivation raises (relative_to fails on the literal key "mels"). -/
theorem prior_cache_path_collision :
    TTSDataset.prior_cache_path none "bb_cache"
        [("mels", "wavs/a.wav"), ("text", "hello")]
      = some "bb_cache/mels.pt" ∧
    TTSDataset.prior_cache_path none "bb_cache"
        [("mels", "wavs/b.wav"), ("text", "goodbye")]
      = some "bb_cache/mels.pt" ∧
    TTSDataset.prior_cache_path (some "data") "bb_cache"
        [("mels", "data/wavs/a.wav"), ("text", "hello")]
      = none := by
  refine ⟨by decide, by decide, by decide⟩

/-- C10: with the interpolator enabled, get_prior depends only on the
requested (mel_len, text_len) pair - not on the example index, the metadata
entries, the cache directory configuration, or the disk state - and performs
no disk reads or writes. -/
theorem get_prior_interpolator_pure
    (td td2 dp dp2 : Option String)
    (es es2 : List (List (String × String)))
    (disk disk2 : String → Option (List (List ℚ)))
    (i j m t : ℕ) :
    TTSDataset.get_prior true td dp es disk i m t
      = TTSDataset.get_prior true td2 dp2 es2 disk2 j m t ∧
    ∀ r fx, TTSDataset.get_prior true td dp es disk i m t = some (r, fx) → fx = [] := by
  constructor
  · rfl
  · intro r fx h
    simp only [TTSDataset.get_prior, if_true, Option.some.injEq, Prod.mk.injEq] at h
    exact h.2.symm

/-- C9: with load_mel_from_disk disabled, get_mel raises the descriptive
sample-rate mismatch error exactly when the loaded waveform's rate differs
from the configured target, and on a match it returns the mel computed by the
STFT collaborator from the (normalized, never resampled) waveform. -/
theorem get_mel_sr_check (cfg : MelConfig) (h : cfg.load_mel_from_disk = false)
    (audio : List ℚ) (sr : ℕ) (disk_mel : List (List ℚ)) :
    (sr ≠ cfg.target_sampling_rate →
      TTSDataset.get_mel cfg audio sr disk_mel
        = Except.error (toString sr ++ " SR does not match target "
            ++ toString cfg.target_sampling_rate ++ " SR")) ∧
    (sr = cfg.target_sampling_rate →
      TTSDataset.get_mel cfg audio sr disk_mel
        = Except.ok (cfg.mel_spectrogram (audio.map (fun s => s / cfg.max_wav_value)))) ∧
    (∀ msg, TTSDataset.get_mel cfg audio sr disk_mel = Except.error msg
        → sr ≠ cfg.target_sampling_rate) := by
  refine ⟨?_, ?_, ?_⟩
  · intro hne
    simp [TTSDataset.get_mel, h, hne]
  · intro he
    simp [TTSDataset.get_mel, h, he]
  · intro msg hmsg he
    rw [TTSDataset.get_mel, h] at hmsg
    simp [he] at hmsg

/-- C9 witness: the statement instantiated at a concrete compute-path
configuration with a mismatching sample rate 44100. -/
theorem get_mel_sr_check_witness :
    (44100 ≠ melCfgW.target_sampling_rate →
      TTSDataset.get_mel melCfgW [1, 2] 44100 []
        = Except.error (toString 44100 ++ " SR does not match target "
            ++ toString melCfgW.target_sampling_rate ++ " SR")) ∧
    (44100 = melCfgW.target_sampling_rate →
      TTSDataset.get_mel melCfgW [1, 2] 44100 []
        = Except.ok (melCfgW.mel_spectrogram
            (([1, 2] : List ℚ).map (fun s => s / melCfgW.max_wav_value)))) ∧
    (∀ msg, TTSDataset.get_mel melCfgW [1, 2] 44100 [] = Except.error msg
        → 44100 ≠ melCfgW.target_sampling_rate) :=
  get_mel_sr_check melCfgW rfl [1, 2] 44100 []

/-- C7: any example the per-item loader returns has a 2-D pitch matrix with
at least one formant row, every row as long as the mel frame count (a 1-D
pitch is reshaped to one row), and a 1-D energy of exactly the mel frame
count; a pitch/mel frame-count mismatch aborts the load instead of returning
an example. -/
theorem getitem_pitch_energy_invariants (mel : List (List ℚ)) (pitch : PitchTensor)
    (hrect : ∀ row ∈ pitch.rows, row.length = pitch.lastDim) :
    (TTSDataset.getitem_features mel pitch = none ↔ pitch.lastDim ≠ melFrames mel) ∧
    (∀ pr en, TTSDataset.getitem_features mel pitch = some (pr, en) →
      1 ≤ pr.length ∧ (∀ row ∈ pr, row.length = melFrames mel)
        ∧ en.length = melFrames mel) := by
  constructor
  · rw [TTSDataset.getitem_features]
    by_cases hp : pitch.lastDim = melFrames mel
    · simp [hp]
    · simp [hp]
  · intro pr en hsome
    rw [TTSDataset.getitem_features] at hsome
    by_cases hp : pitch.lastDim = melFrames mel
    · rw [if_pos hp] at hsome
      simp only [Option.some.injEq, Prod.mk.injEq] at hsome
      obtain ⟨hpr, hen⟩ := hsome
      subst hpr
      subst hen
      refine ⟨?_, ?_, ?_⟩
      · cases pitch <;> simp [PitchTensor.rows]
      · intro row hrow
        rw [← hp]
        exact hrect row hrow
      · simp [melEnergy]
    · rw [if_neg hp] at hsome
      cases hsome

/-- C7 witness: a 2-channel, 3-frame mel with a matching 1-D pitch. -/
theorem getitem_pitch_energy_invariants_witness :
    (TTSDataset.getitem_features melW pitchW = none ↔ pitchW.lastDim ≠ melFrames melW) ∧
    (∀ pr en, TTSDataset.getitem_features melW pitchW = some (pr, en) →
      1 ≤ pr.length ∧ (∀ row ∈ pr, row.length = melFrames melW)
        ∧ en.length = melFrames melW) :=
  getitem_pitch_energy_invariants melW pitchW (by
    intro row hrow
    simp only [pitchW, PitchTensor.rows, List.mem_singleton] at hrow
    subst hrow
    rfl)

lemma call_eq_some {α : Type} [Zero α] (batch : List (Ex α)) (hne : batch ≠ [])
    {m : List (List α)} (hds : (batch.headD default).ds_mel = some m) :
    TTSCollate.call batch = some
      { text_padded := textPaddedOf batch
        input_lengths := inputLengthsOf batch
        mel_padded := melPaddedOf batch
        output_lengths := outputLengthsOf batch
        len_x := lenXOf batch
        pitch_padded := pitchPaddedOf batch
        energy_padded := energyPaddedOf batch
        speaker := speakerOf batch
        attn_prior_padded := attnPriorPaddedOf batch
        audiopaths := audiopathsOf batch
        cwt_padded := cwtPaddedOf batch
        ds_mel_padded := some (dsMelPaddedOf batch)
        output_lengths_ds := outputLengthsDsOf batch } := by
  cases batch with
  | nil => exact absurd rfl hne
  | cons b0 bt =>
      rw [List.headD_cons] at hds
      simp [TTSCollate.call, hds]

lemma call_isSome_parts {α : Type} [Zero α] {batch : List (Ex α)}
    (h : (TTSCollate.call batch).isSome) :
    batch ≠ [] ∧ ∃ m, (batch.headD default).ds_mel = some m := by
  constructor
  · intro hcon
    subst hcon
    simp [TTSCollate.call] at h
  · cases hd : (batch.headD default).ds_mel with
    | some m => exact ⟨m, rfl⟩
    | none =>
        exfalso
        cases batch with
        | nil => simp [TTSCollate.call] at h
        | cons b0 bt =>
            rw [List.headD_cons] at hd
            simp [TTSCollate.call, hd] at h

lemma call_get_eq {α : Type} [Zero α] {batch : List (Ex α)}
    (h : (TTSCollate.call batch).isSome) :
    (TTSCollate.call batch).get h =
      { text_padded := textPaddedOf batch
        input_lengths := inputLengthsOf batch
        mel_padded := melPaddedOf batch
        output_lengths := outputLengthsOf batch
        len_x := lenXOf batch
        pitch_padded := pitchPaddedOf batch
        energy_padded := energyPaddedOf batch
        speaker := speakerOf batch
        attn_prior_padded := attnPriorPaddedOf batch
        audiopaths := audiopathsOf batch
        cwt_padded := cwtPaddedOf batch
        ds_mel_padded := some (dsMelPaddedOf batch)
        output_lengths_ds := outputLengthsDsOf batch } := by
  obtain ⟨hne, m, hds⟩ := call_isSome_parts h
  simp only [call_eq_some batch hne hds, Option.get_some]

lemma textPaddedOf_getD {α : Type} (batch : List (Ex α)) {i : ℕ} (hi : i < batch.length) :
    (textPaddedOf batch).getD i []
      = padRow 0 (maxInputLen batch)
          ((batch.getD ((sortedIdxOf batch).getD i 0) default).text) := by
  rw [textPaddedOf]
  exact getD_map_of_lt _ _ (by rw [sortedIdxOf_length]; exact hi) [] 0

lemma inputLengthsOf_getD {α : Type} (batch : List (Ex α)) {i : ℕ} (hi : i < batch.length) :
    (inputLengthsOf batch).getD i 0
      = ((batch.getD ((sortedIdxOf batch).getD i 0) default).text).length := by
  rw [inputLengthsOf]
  rw [getD_map_of_lt _ _ (by rw [sortedIdxOf_length]; exact hi) 0 0]
  exact textLens_getD batch (sortedIdxOf_getD_lt batch hi)

/-- C1/code bug: for every non-empty batch in which no example carries a
downsampled mel (the default configuration), collation fails instead of
returning a batch: the final return statement reads output_lengths_ds, which
is assigned only in the batch[0][9] is not None branch. -/
theorem collate_ds_absent_fails {α : Type} [Zero α] (batch : List (Ex α))
    (hne : batch ≠ []) (habs : ∀ e ∈ batch, e.ds_mel = none) :
    TTSCollate.call batch = none := by
  cases batch with
  | nil => exact absurd rfl hne
  | cons b0 bt =>
      have h0 : b0.ds_mel = none := habs b0 (List.mem_cons_self _ _)
      simp [TTSCollate.call, h0]

/-- C1 witness: a concrete one-example batch without downsampled mel. -/
theorem collate_ds_absent_fails_witness : TTSCollate.call [exNoDs] = none :=
  collate_ds_absent_fails [exNoDs] (by simp) (by decide)

/-- C5: the collated text tensor has one row per example, every row is as
long as the longest text in the batch, entries of row i at or beyond the
recorded sorted length are exactly zero, and the input-lengths vector is the
multiset of text lengths in descending order. -/
theorem collate_text_tensor_spec {α : Type} [Zero α] (batch : List (Ex α))
    (h : (TTSCollate.call batch).isSome) :
    ((TTSCollate.call batch).get h).text_padded.length = batch.length ∧
    (∀ row ∈ ((TTSCollate.call batch).get h).text_padded,
      row.length = (textLens batch).foldr max 0) ∧
    (∀ i j : ℕ, i < batch.length →
      ((TTSCollate.call batch).get h).input_lengths.getD i 0 ≤ j →
      (((TTSCollate.call batch).get h).text_padded.getD i []).getD j 0 = 0) ∧
    ((TTSCollate.call batch).get h).input_lengths.Perm (textLens batch) ∧
    ((TTSCollate.call batch).get h).input_lengths.Sorted (fun a b => b ≤ a) := by
  have hne : batch ≠ [] := (call_isSome_parts h).1
  rw [call_get_eq h]
  refine ⟨?_, ?_, ?_, inputLengthsOf_perm batch, inputLengthsOf_sorted batch⟩
  · rw [textPaddedOf, List.length_map, sortedIdxOf_length]
  · intro row hrow
    rw [textPaddedOf] at hrow
    obtain ⟨i, hi, rfl⟩ := List.mem_map.mp hrow
    have hilt : i < batch.length := by
      have hm := mem_sortIdx hi
      rwa [textLens_length] at hm
    have hmem : ((batch.getD i default).text).length ∈ textLens batch := by
      rw [← textLens_getD batch hilt]
      exact getD_mem _ (by rw [textLens_length]; exact hilt) _
    rw [padRow_length _ _ (le_maxInputLen hmem), maxInputLen_eq_foldr hne]
  · intro i j hi hj
    rw [inputLengthsOf_getD batch hi] at hj
    rw [textPaddedOf_getD batch hi]
    exact padRow_getD_of_le _ _ _ hj

lemma batchW_isSome : (TTSCollate.call batchW).isSome := by decide

/-- C5 witness: the statement at a concrete two-example batch whose texts
have lengths 3 and 5 (in that pre-sort order). -/
theorem collate_text_tensor_spec_witness :
    ((TTSCollate.call batchW).get batchW_isSome).text_padded.length = batchW.length ∧
    (∀ row ∈ ((TTSCollate.call batchW).get batchW_isSome).text_padded,
      row.length = (textLens batchW).foldr max 0) ∧
    (∀ i j : ℕ, i < batchW.length →
      ((TTSCollate.call batchW).get batchW_isSome).input_lengths.getD i 0 ≤ j →
      (((TTSCollate.call batchW).get batchW_isSome).text_padded.getD i []).getD j 0 = 0) ∧
    ((TTSCollate.call batchW).get batchW_isSome).input_lengths.Perm (textLens batchW) ∧
    ((TTSCollate.call batchW).get batchW_isSome).input_lengths.Sorted (fun a b => b ≤ a) :=
  collate_text_tensor_spec batchW batchW_isSome

/-- C6: slicing row i of the padded text tensor back to input_lengths[i]
reproduces the i-th sorted example's token sequence exactly, and slicing
every channel of row i of the padded mel tensor back to output_lengths[i]
reproduces its mel-spectrogram exactly. -/
theorem collate_roundtrip {α : Type} [Zero α] (batch : List (Ex α))
    (hwf : ∀ e ∈ batch, ∀ row ∈ e.mel, row.length = melFrames e.mel)
    (h : (TTSCollate.call batch).isSome) :
    ∀ i < batch.length,
      (((TTSCollate.call batch).get h).text_padded.getD i []).take
          (((TTSCollate.call batch).get h).input_lengths.getD i 0)
        = (batch.getD ((sortedIdxOf batch).getD i 0) default).text ∧
      (((TTSCollate.call batch).get h).mel_padded.getD i []).map
          (fun r => r.take (((TTSCollate.call batch).get h).output_lengths.getD i 0))
        = (batch.getD ((sortedIdxOf batch).getD i 0) default).mel := by
  intro i hi
  rw [call_get_eq h]
  have hslt : (sortedIdxOf batch).getD i 0 < batch.length := sortedIdxOf_getD_lt batch hi
  constructor
  · rw [textPaddedOf_getD batch hi, inputLengthsOf_getD batch hi, padRow_take]
  · have hmp : (melPaddedOf batch).getD i []
        = ((batch.getD ((sortedIdxOf batch).getD i 0) default).mel).map
            (padRow 0 (maxTargetLen batch)) := by
      rw [melPaddedOf]
      exact getD_map_of_lt _ _ (by rw [sortedIdxOf_length]; exact hi) [] 0
    have hol : (outputLengthsOf batch).getD i 0
        = melFrames ((batch.getD ((sortedIdxOf batch).getD i 0) default).mel) := by
      rw [outputLengthsOf]
      exact getD_map_of_lt _ _ (by rw [sortedIdxOf_length]; exact hi) 0 0
    rw [hmp, hol, List.map_map]
    have hrows := hwf (batch.getD ((sortedIdxOf batch).getD i 0) default)
      (getD_mem batch hslt default)
    have hper : ∀ r ∈ (batch.getD ((sortedIdxOf batch).getD i 0) default).mel,
        ((fun s => s.take (melFrames ((batch.getD ((sortedIdxOf batch).getD i 0) default).mel)))
          ∘ padRow 0 (maxTargetLen batch)) r = id r := by
      intro r hr
      show (padRow 0 (maxTargetLen batch) r).take _ = r
      rw [← hrows r hr]
      exact padRow_take _ _ _
    rw [List.map_congr_left hper, List.map_id]

/-- C6 witness: the statement at the concrete two-example batch, row 0. -/
theorem collate_roundtrip_witness :
    (((TTSCollate.call batchW).get batchW_isSome).text_padded.getD 0 []).take
        (((TTSCollate.call batchW).get batchW_isSome).input_lengths.getD 0 0)
      = (batchW.getD ((sortedIdxOf batchW).getD 0 0) default).text ∧
    (((TTSCollate.call batchW).get batchW_isSome).mel_padded.getD 0 []).map
        (fun r => r.take (((TTSCollate.call batchW).get batchW_isSome).output_lengths.getD 0 0))
      = (batchW.getD ((sortedIdxOf batchW).getD 0 0) default).mel :=
  collate_roundtrip batchW (by decide) batchW_isSome 0 (by decide)

/-- C8: the raw token-count scalar list len_x is kept in the original
pre-sort batch order, while the audio-path list follows the sorted
(descending text length) permutation of the same examples. -/
theorem collate_lenx_vs_audiopaths {α : Type} [Zero α] (batch : List (Ex α))
    (h : (TTSCollate.call batch).isSome) :
    ((TTSCollate.call batch).get h).len_x = batch.map (fun e => e.len_text) ∧
    ((TTSCollate.call batch).get h).audiopaths
      = (sortedIdxOf batch).map (fun i => (batch.getD i default).audiopath) ∧
    ((TTSCollate.call batch).get h).audiopaths.Perm
      (batch.map (fun e => e.audiopath)) := by
  rw [call_get_eq h]
  refine ⟨rfl, rfl, ?_⟩
  have hp := (sortIdx_perm (textLens batch)).map (fun i => (batch.getD i default).audiopath)
  rw [textLens_length, range_map_getD default (fun e => e.audiopath) batch] at hp
  exact hp

/-- C8 witness: at the concrete batch the sorted permutation is (1, 0), so
len_x stays [3, 5] while the audio paths come back sorted. -/
theorem collate_lenx_vs_audiopaths_witness :
    ((TTSCollate.call batchW).get batchW_isSome).len_x
      = batchW.map (fun e => e.len_text) ∧
    ((TTSCollate.call batchW).get batchW_isSome).audiopaths
      = (sortedIdxOf batchW).map (fun i => (batchW.getD i default).audiopath) ∧
    ((TTSCollate.call batchW).get batchW_isSome).audiopaths.Perm
      (batchW.map (fun e => e.audiopath)) :=
  collate_lenx_vs_audiopaths batchW batchW_isSome
